import Mathlib

/-!
Verification of the plate-carree → Web-Mercator row-remapping core of
`scripts/download_lp.py` (repository DarkHorizon), shallowly embedded in Lean.

The numeric core (`_merc_y`, the inverse projection, and the row-index
computation inside `reproject`, lines 145–200) is embedded over the reals,
the standard idealisation of the script's float arithmetic.  Python's
`math.log` raises `ValueError` on a non-positive argument; this partiality
is made explicit with `Option`, so a `none` result models the script
aborting with an exception.  `np.round` is modelled by Mathlib's `round`
(the two differ only in tie-breaking at exact half-integers, which no
theorem below depends on).  The array/metadata part of `reproject`
(lines 176–212: numpy fancy row indexing, palette and transparency
pass-through) is embedded computably over lists.
-/

open Real

namespace DownloadLP

/-- Angle fed to `tan` in `_merc_y` (line 147): `math.pi / 4.0 + math.radians(lat_deg) / 2.0`,
with `radians(x) = x * pi / 180`. -/
noncomputable def mercAngle (lat : ℝ) : ℝ := π / 4 + lat * π / 180 / 2

/-- Value computed by `_merc_y` (lines 145–147): `log(tan(pi/4 + radians(lat)/2))`. -/
noncomputable def merc_y (lat : ℝ) : ℝ := Real.log (Real.tan (mercAngle lat))

/-- Embedding of `_merc_y` with the partiality of Python's `math.log` explicit:
`math.log` raises `ValueError` on a non-positive argument (`math.tan` is total),
modelled as `none`. -/
noncomputable def mercY? (lat : ℝ) : Option ℝ :=
  if 0 < Real.tan (mercAngle lat) then some (merc_y lat) else none

/-- Inverse projection applied in `reproject` (line 193):
`np.degrees(2.0 * np.arctan(np.exp(y)) - math.pi / 2.0)`, with
`degrees(x) = x * 180 / pi`. -/
noncomputable def inv_merc_y (y : ℝ) : ℝ :=
  (2 * Real.arctan (Real.exp y) - π / 2) * 180 / π

/-- Latitude assigned to output row `i` in `reproject` (lines 189–193):
fraction `i / (H - 1)`, linear interpolation in Mercator space from
`merc_max` down to `merc_min`, then the inverse projection. -/
noncomputable def rowLat (lat_min lat_max : ℝ) (H i : ℕ) : ℝ :=
  inv_merc_y (merc_y lat_max -
    ((i : ℝ) / ((H : ℝ) - 1)) * (merc_y lat_max - merc_y lat_min))

/-- Source row selected for output row `i` in `reproject` (lines 196–200):
`np.clip(np.round((lat_max - lats) / (lat_max - lat_min) * src_h), 0, src_h - 1)`,
where `np.clip(x, lo, hi) = min(hi, max(lo, x))`. -/
noncomputable def srcRow (lat_min lat_max : ℝ) (H i : ℕ) : ℤ :=
  min ((H : ℤ) - 1)
    (max 0 (round ((lat_max - rowLat lat_min lat_max H i) / (lat_max - lat_min) * (H : ℝ))))

/-- The whole row-index computation of `reproject` (lines 185–200): first
`merc_max = _merc_y(lat_max)` then `merc_min = _merc_y(lat_min)` are computed
(each can abort with a `math.log` domain error, modelled by `none`); the
remaining vectorised arithmetic is total.  A `some f` result carries the
row-index map, `f i` being the source row for output row `i`. -/
noncomputable def rowIndexMap? (lat_min lat_max : ℝ) (H : ℕ) : Option (ℕ → ℤ) :=
  (mercY? lat_max).bind fun _ =>
    (mercY? lat_min).bind fun _ =>
      some (fun i => srcRow lat_min lat_max H i)

/-- The set of latitudes at which `reproject` evaluates `_merc_y`: lines 185–186
are the only call sites, with arguments `lat_max` and `lat_min`. -/
def mercArgs (lat_min lat_max : ℝ) : Set ℝ := {lat_max, lat_min}

/- ── Helper lemmas about the projector pair ─────────────────────────────── -/

theorem mercAngle_pos {L : ℝ} (h : -90 < L) : 0 < mercAngle L := by
  have hπ := Real.pi_pos
  have h1 : (0:ℝ) < (L + 90) * π := mul_pos (by linarith) hπ
  unfold mercAngle
  nlinarith

theorem mercAngle_lt_pi_div_two {L : ℝ} (h : L < 90) : mercAngle L < π / 2 := by
  have hπ := Real.pi_pos
  have h1 : (0:ℝ) < (90 - L) * π := mul_pos (by linarith) hπ
  unfold mercAngle
  nlinarith

theorem tan_mercAngle_pos {L : ℝ} (h1 : -90 < L) (h2 : L < 90) :
    0 < Real.tan (mercAngle L) :=
  Real.tan_pos_of_pos_of_lt_pi_div_two (mercAngle_pos h1) (mercAngle_lt_pi_div_two h2)

theorem mercY?_eq_some {L : ℝ} (h1 : -90 < L) (h2 : L < 90) :
    mercY? L = some (merc_y L) := by
  unfold mercY?
  rw [if_pos (tan_mercAngle_pos h1 h2)]

theorem mercAngle_south_pole : mercAngle (-90) = 0 := by
  unfold mercAngle
  ring

theorem mercY?_south_pole : mercY? (-90) = none := by
  unfold mercY?
  rw [mercAngle_south_pole, Real.tan_zero, if_neg (lt_irrefl 0)]

/-- Round-trip of the projector pair: on the open interval the inverse
projection undoes `_merc_y` exactly (in exact real arithmetic). -/
theorem inv_merc_merc {L : ℝ} (h1 : -90 < L) (h2 : L < 90) :
    inv_merc_y (merc_y L) = L := by
  have hπ := Real.pi_pos
  have hθ1 : 0 < mercAngle L := mercAngle_pos h1
  have hθ2 : mercAngle L < π / 2 := mercAngle_lt_pi_div_two h2
  have htan : 0 < Real.tan (mercAngle L) := Real.tan_pos_of_pos_of_lt_pi_div_two hθ1 hθ2
  unfold inv_merc_y merc_y
  rw [Real.exp_log htan, Real.arctan_tan (by linarith) hθ2]
  unfold mercAngle
  field_simp
  ring

/-- Strict monotonicity of `_merc_y` on the open interval. -/
theorem merc_y_lt {a b : ℝ} (ha : -90 < a) (hab : a < b) (hb : b < 90) :
    merc_y a < merc_y b := by
  have hπ := Real.pi_pos
  have hθab : mercAngle a < mercAngle b := by
    have h1 : (0:ℝ) < (b - a) * π := mul_pos (by linarith) hπ
    unfold mercAngle
    nlinarith
  have hta : 0 < Real.tan (mercAngle a) := tan_mercAngle_pos ha (by linarith)
  have htt : Real.tan (mercAngle a) < Real.tan (mercAngle b) :=
    Real.tan_lt_tan_of_lt_of_lt_pi_div_two (by linarith [mercAngle_pos ha])
      (mercAngle_lt_pi_div_two hb) hθab
  exact Real.log_lt_log hta htt

/-- Strict monotonicity of the inverse projection (total, all finite inputs). -/
theorem inv_merc_y_lt {y z : ℝ} (h : y < z) : inv_merc_y y < inv_merc_y z := by
  have hπ := Real.pi_pos
  have h1 : Real.arctan (Real.exp y) < Real.arctan (Real.exp z) :=
    Real.arctan_strictMono (Real.exp_lt_exp.mpr h)
  unfold inv_merc_y
  rw [div_lt_div_iff_of_pos_right hπ]
  nlinarith

theorem inv_merc_y_le {y z : ℝ} (h : y ≤ z) : inv_merc_y y ≤ inv_merc_y z := by
  rcases eq_or_lt_of_le h with rfl | hlt
  · exact le_rfl
  · exact le_of_lt (inv_merc_y_lt hlt)

theorem round_mono_of_le {x y : ℝ} (h : x ≤ y) : round x ≤ round y := by
  rw [round_eq, round_eq]
  exact Int.floor_mono (by linarith)

/- ── Helper lemmas about the row-index computation ──────────────────────── -/

theorem srcRow_nonneg {lat_min lat_max : ℝ} {H : ℕ} (hH : 1 ≤ H) (i : ℕ) :
    0 ≤ srcRow lat_min lat_max H i := by
  have h1 : (1:ℤ) ≤ (H:ℤ) := by exact_mod_cast hH
  exact le_min (by omega) (le_max_left _ _)

theorem srcRow_le {lat_min lat_max : ℝ} {H : ℕ} (i : ℕ) :
    srcRow lat_min lat_max H i ≤ (H : ℤ) - 1 :=
  min_le_left _ _

/-- Output row 0 samples source row 0: the fraction is 0, the Mercator value is
`merc_max`, the inverse projection returns `lat_max`, and the rounded offset
is 0. -/
theorem srcRow_zero {lat_min lat_max : ℝ} {H : ℕ}
    (h1 : -90 < lat_min) (h2 : lat_min < lat_max) (h3 : lat_max < 90) (hH : 2 ≤ H) :
    srcRow lat_min lat_max H 0 = 0 := by
  have hH' : (2:ℤ) ≤ (H:ℤ) := by exact_mod_cast hH
  unfold srcRow rowLat
  rw [Nat.cast_zero, zero_div, zero_mul, sub_zero, inv_merc_merc (by linarith) h3,
    sub_self, zero_div, zero_mul, round_zero, max_self]
  exact min_eq_right (by omega)

/-- Output row `H - 1` samples source row `H - 1`: the fraction is 1, the
Mercator value is `merc_min`, the inverse projection returns `lat_min`, the
rounded value is `H`, and the upper clip brings it to `H - 1`. -/
theorem srcRow_last {lat_min lat_max : ℝ} {H : ℕ}
    (h1 : -90 < lat_min) (h2 : lat_min < lat_max) (h3 : lat_max < 90) (hH : 2 ≤ H) :
    srcRow lat_min lat_max H (H - 1) = (H : ℤ) - 1 := by
  have hH' : (2:ℝ) ≤ (H:ℝ) := by exact_mod_cast hH
  have hHz : (2:ℤ) ≤ (H:ℤ) := by exact_mod_cast hH
  have hcast : ((H - 1 : ℕ) : ℝ) = (H : ℝ) - 1 := by
    rw [Nat.cast_sub (by omega), Nat.cast_one]
  have hne : (H : ℝ) - 1 ≠ 0 := by
    intro h
    nlinarith
  have hΔ : lat_max - lat_min ≠ 0 := ne_of_gt (by linarith)
  unfold srcRow rowLat
  rw [hcast, div_self hne, one_mul, sub_sub_cancel,
    inv_merc_merc h1 (by linarith), div_self hΔ, one_mul, round_natCast,
    max_eq_right (by positivity)]
  exact min_eq_left (by omega)

/-- The row-index computation is weakly monotone in the output row, for
extents strictly inside the open interval. -/
theorem srcRow_mono {lat_min lat_max : ℝ} {H : ℕ}
    (h1 : -90 < lat_min) (h2 : lat_min < lat_max) (h3 : lat_max < 90) (hH : 2 ≤ H)
    {i j : ℕ} (hij : i ≤ j) :
    srcRow lat_min lat_max H i ≤ srcRow lat_min lat_max H j := by
  have hH' : (2:ℝ) ≤ (H:ℝ) := by exact_mod_cast hH
  have hden : (0:ℝ) < (H:ℝ) - 1 := by linarith
  have hMm : merc_y lat_min < merc_y lat_max := merc_y_lt h1 h2 h3
  have hfrac : (i:ℝ) / ((H:ℝ) - 1) ≤ (j:ℝ) / ((H:ℝ) - 1) :=
    (div_le_div_iff_of_pos_right hden).mpr (by exact_mod_cast hij)
  have hstep : (i:ℝ) / ((H:ℝ) - 1) * (merc_y lat_max - merc_y lat_min)
      ≤ (j:ℝ) / ((H:ℝ) - 1) * (merc_y lat_max - merc_y lat_min) :=
    mul_le_mul_of_nonneg_right hfrac (by linarith)
  have hmerc : merc_y lat_max - (j:ℝ) / ((H:ℝ) - 1) * (merc_y lat_max - merc_y lat_min)
      ≤ merc_y lat_max - (i:ℝ) / ((H:ℝ) - 1) * (merc_y lat_max - merc_y lat_min) := by
    linarith
  have hlat : rowLat lat_min lat_max H j ≤ rowLat lat_min lat_max H i := by
    unfold rowLat
    exact inv_merc_y_le hmerc
  have hΔ : (0:ℝ) < lat_max - lat_min := by linarith
  have harg : (lat_max - rowLat lat_min lat_max H i) / (lat_max - lat_min) * (H:ℝ)
      ≤ (lat_max - rowLat lat_min lat_max H j) / (lat_max - lat_min) * (H:ℝ) := by
    refine mul_le_mul_of_nonneg_right ?_ (by positivity)
    exact (div_le_div_iff_of_pos_right hΔ).mpr (by linarith)
  have hround := round_mono_of_le harg
  unfold srcRow
  exact min_le_min le_rfl (max_le_max le_rfl hround)

/- ── The raster/metadata part of `reproject` (lines 176–212) ────────────── -/

/-- PIL image mode as used by the script: `img.mode == "P"` distinguishes
palette images from direct-colour ones. -/
inductive ColorMode
  | P
  | RGB
  | RGBA
  deriving DecidableEq

/-- The data `reproject` reads from the decoded image (lines 176–181):
the pixel array as a list of rows (a row is an arbitrary type, covering both
the `(H, W)` palette case and the `(H, W, C)` direct-colour case), the mode,
`img.getpalette()` and `img.info.get("transparency")`. -/
structure PILImage (α : Type) where
  rows : List α
  mode : ColorMode
  palette : Option (List Nat)
  transparency : Option Nat

/-- Numpy fancy row indexing `arr[y_src]` (line 202): each entry of the index
list selects one source row; an out-of-range index raises `IndexError`,
modelled as `none`. -/
def gatherRows {α : Type} (rows : List α) : List Nat → Option (List α)
  | [] => some []
  | j :: js =>
    match rows[j]?, gatherRows rows js with
    | some r, some rest => some (r :: rest)
    | _, _ => none

/-- Palette attached to the output (lines 177–178 and 205–206): the source
palette is read only when `img.mode == "P"`, and `putpalette` runs only when
both `is_palette` and `palette` are truthy (a `None` or empty palette is
skipped). -/
def outPalette (mode : ColorMode) (palette : Option (List Nat)) : Option (List Nat) :=
  if mode = ColorMode.P then
    match palette with
    | some p => if p = [] then none else some p
    | none => none
  else none

/-- Output image assembled by `reproject` (lines 202–212): rows gathered by
`arr[y_src]`, mode passed verbatim to `Image.fromarray`, palette attached by
`putpalette` under the conditions of `outPalette`, and the transparency value
forwarded to `save` whenever it is not `None`. -/
def reprojectOutput {α : Type} (img : PILImage α) (ymap : List Nat) :
    Option (PILImage α) :=
  (gatherRows img.rows ymap).map fun out =>
    { rows := out
      mode := img.mode
      palette := outPalette img.mode img.palette
      transparency := img.transparency }

theorem gatherRows_isSome {α : Type} (rows : List α) (ymap : List Nat)
    (h : ∀ j ∈ ymap, j < rows.length) :
    ∃ l, gatherRows rows ymap = some l := by
  induction ymap with
  | nil => exact ⟨[], rfl⟩
  | cons j js ih =>
    obtain ⟨l, hl⟩ := ih fun k hk => h k (List.mem_cons_of_mem _ hk)
    have hj : j < rows.length := h j (List.mem_cons_self _ _)
    refine ⟨rows[j] :: l, ?_⟩
    simp [gatherRows, List.getElem?_eq_getElem hj, hl]

theorem gatherRows_length {α : Type} {rows : List α} {ymap : List Nat} {l : List α}
    (h : gatherRows rows ymap = some l) : l.length = ymap.length := by
  induction ymap generalizing l with
  | nil =>
    simp [gatherRows] at h
    simp [← h]
  | cons j js ih =>
    cases hr : rows[j]? with
    | none => simp [gatherRows, hr] at h
    | some r =>
      cases hrest : gatherRows rows js with
      | none => simp [gatherRows, hr, hrest] at h
      | some rest =>
        simp [gatherRows, hr, hrest] at h
        simp [← h, List.length_cons, ih hrest]

theorem gatherRows_getElem {α : Type} {rows : List α} {ymap : List Nat} {l : List α}
    (h : gatherRows rows ymap = some l) (i : Nat) :
    l[i]? = (ymap[i]?).bind fun j => rows[j]? := by
  induction ymap generalizing l i with
  | nil =>
    simp [gatherRows] at h
    subst h
    simp
  | cons j js ih =>
    cases hr : rows[j]? with
    | none => simp [gatherRows, hr] at h
    | some r =>
      cases hrest : gatherRows rows js with
      | none => simp [gatherRows, hr, hrest] at h
      | some rest =>
        simp [gatherRows, hr, hrest] at h
        cases i with
        | zero => simp [← h, hr]
        | succ n => simp [← h, ih hrest n]

theorem gatherRows_mem {α : Type} {rows : List α} {ymap : List Nat} {l : List α}
    (h : gatherRows rows ymap = some l) : ∀ r ∈ l, r ∈ rows := by
  induction ymap generalizing l with
  | nil =>
    simp [gatherRows] at h
    subst h
    simp
  | cons j js ih =>
    cases hr : rows[j]? with
    | none => simp [gatherRows, hr] at h
    | some r =>
      cases hrest : gatherRows rows js with
      | none => simp [gatherRows, hr, hrest] at h
      | some rest =>
        simp [gatherRows, hr, hrest] at h
        intro x hx
        rw [← h] at hx
        rcases List.mem_cons.mp hx with rfl | hx'
        · exact List.getElem?_mem hr
        · exact ih hrest x hx'

/-- Concrete direct-colour image used to instantiate the resampling theorems. -/
def demoImage : PILImage (List Nat) :=
  { rows := [[1, 2], [3, 4]], mode := ColorMode.RGB, palette := none, transparency := none }

/-- Concrete palette-mode image with a transparency index, used to instantiate
the palette-preservation theorem. -/
def paletteImage : PILImage (List Nat) :=
  { rows := [[0, 1], [2, 3]], mode := ColorMode.P,
    palette := some [255, 0, 0, 0, 255, 0], transparency := some 0 }

/- ── Claim theorems ─────────────────────────────────────────────────────── -/

/-- C1, counterexample to the claim as stated: lat_min = -90 lies in [-90, 90]
and below lat_max = 0, yet `reproject` produces no row-index map there:
`_merc_y(-90)` computes `log(tan(pi/4 + radians(-90)/2)) = log(tan(0)) = log(0)`
and Python's `math.log` raises `ValueError: math domain error`. -/
theorem rowIndexMap_fails_at_south_pole : rowIndexMap? (-90) 0 2 = none := by
  unfold rowIndexMap?
  rw [mercY?_eq_some (by norm_num) (by norm_num), mercY?_south_pole]
  rfl

/-- C1 (amended: extents strictly inside (-90, 90); at lat_min = -90 the code
aborts with a log domain error, see `rowIndexMap_fails_at_south_pole`): for
every extent with lat_min < lat_max, both strictly inside (-90, 90), and every
height H ≥ 2, `reproject` produces a row-index map whose entry at each output
row i in [0, H-1] is
clamp(round((lat_max - inverseMercatorY(merc_max - (i/(H-1)) * (merc_max - merc_min)))
/ (lat_max - lat_min) * H), 0, H-1) with merc_max = mercatorY(lat_max) and
merc_min = mercatorY(lat_min); in particular every entry is an integer in
[0, H-1]. -/
theorem rowIndexMap_formula (lat_min lat_max : ℝ) (H : ℕ)
    (h1 : -90 < lat_min) (h2 : lat_min < lat_max) (h3 : lat_max < 90) (hH : 2 ≤ H) :
    rowIndexMap? lat_min lat_max H = some (fun i => srcRow lat_min lat_max H i) ∧
    ∀ i, i < H →
      srcRow lat_min lat_max H i =
        min ((H : ℤ) - 1) (max 0 (round ((lat_max -
          inv_merc_y (merc_y lat_max - ((i : ℝ) / ((H : ℝ) - 1)) *
            (merc_y lat_max - merc_y lat_min))) / (lat_max - lat_min) * (H : ℝ)))) ∧
      0 ≤ srcRow lat_min lat_max H i ∧
      srcRow lat_min lat_max H i ≤ (H : ℤ) - 1 := by
  refine ⟨?_, fun i _ => ⟨rfl, srcRow_nonneg (by omega) i, srcRow_le i⟩⟩
  unfold rowIndexMap?
  rw [mercY?_eq_some (by linarith) h3, mercY?_eq_some h1 (by linarith)]
  rfl

theorem rowIndexMap_formula_witness :
    rowIndexMap? 0 45 3 = some (fun i => srcRow 0 45 3 i) ∧
    ∀ i, i < 3 →
      srcRow 0 45 3 i =
        min ((3 : ℤ) - 1) (max 0 (round ((45 -
          inv_merc_y (merc_y 45 - ((i : ℝ) / ((3 : ℝ) - 1)) *
            (merc_y 45 - merc_y 0))) / (45 - 0) * (3 : ℝ)))) ∧
      0 ≤ srcRow 0 45 3 i ∧
      srcRow 0 45 3 i ≤ (3 : ℤ) - 1 := by
  exact rowIndexMap_formula 0 45 3 (by norm_num) (by norm_num) (by norm_num) (by norm_num)

/-- C2, counterexample to the claim as stated: for the malformed extent
lat_min = 80, lat_max = 70 `reproject` raises nothing at all — it has no
extent validation — and computes a row-index map, then accesses the array. -/
theorem reversed_extent_not_rejected : (rowIndexMap? 80 70 3).isSome = true := by
  unfold rowIndexMap?
  rw [mercY?_eq_some (by norm_num) (by norm_num), mercY?_eq_some (by norm_num) (by norm_num)]
  rfl

/-- C2 (amended): `reproject` performs no extent validation and no
`InvalidExtent` error exists in the code; for any extents strictly inside
(-90, 90) — in any order, including lat_min = 80 ≥ lat_max = 70 — the
row-index computation succeeds and row computation and array access proceed. -/
theorem reproject_no_extent_validation (lat_min lat_max : ℝ) (H : ℕ)
    (h1 : -90 < lat_min) (h2 : lat_min < 90) (h3 : -90 < lat_max) (h4 : lat_max < 90) :
    (rowIndexMap? lat_min lat_max H).isSome = true := by
  unfold rowIndexMap?
  rw [mercY?_eq_some h3 h4, mercY?_eq_some h1 h2]
  rfl

theorem reproject_no_extent_validation_witness : (rowIndexMap? 80 70 5).isSome = true := by
  exact reproject_no_extent_validation 80 70 5 (by norm_num) (by norm_num) (by norm_num)
    (by norm_num)

/-- C3, counterexample to the claim as stated: for a source raster of height
H = 1 `reproject` raises no error — no `DegenerateHeight` check exists; the
fraction computation `np.arange(1) / 0` yields NaN with a numpy warning, not
an exception, and an output is produced. -/
theorem degenerate_height_not_rejected : (rowIndexMap? 10 20 1).isSome = true := by
  unfold rowIndexMap?
  rw [mercY?_eq_some (by norm_num) (by norm_num), mercY?_eq_some (by norm_num) (by norm_num)]
  rfl

/-- C3 (amended): `reproject` does not reject degenerate heights: for any
raster height H ≤ 1 and extents strictly inside (-90, 90), the row-index
computation raises no error (numpy float division by zero produces NaN with a
warning, never an exception) and a row-index map is produced. -/
theorem reproject_no_height_validation (lat_min lat_max : ℝ) (H : ℕ)
    (h1 : -90 < lat_min) (h2 : lat_min < 90) (h3 : -90 < lat_max) (h4 : lat_max < 90)
    (_hH : H ≤ 1) :
    (rowIndexMap? lat_min lat_max H).isSome = true := by
  unfold rowIndexMap?
  rw [mercY?_eq_some h3 h4, mercY?_eq_some h1 h2]
  rfl

theorem reproject_no_height_validation_witness : (rowIndexMap? (-30) 42 1).isSome = true := by
  exact reproject_no_height_validation (-30) 42 1 (by norm_num) (by norm_num) (by norm_num)
    (by norm_num) (by norm_num)

/-- C4: for every latitude L strictly inside (-90, 90),
inverseMercatorY(mercatorY(L)) = L — in the exact-real embedding the inverse
projector inverts `_merc_y` exactly (the code round-trips to floating-point
precision), and `inv_merc_y` is total over all finite inputs. -/
theorem mercator_roundtrip (L : ℝ) (h1 : -90 < L) (h2 : L < 90) :
    inv_merc_y (merc_y L) = L :=
  inv_merc_merc h1 h2

theorem mercator_roundtrip_witness : inv_merc_y (merc_y 45) = 45 := by
  exact mercator_roundtrip 45 (by norm_num) (by norm_num)

/-- C5, counterexample to the claim as stated: lat_min = -90 lies in [-90, 90]
and below lat_max = 45, yet `reproject` aborts with a `math.log` domain error
(`_merc_y(-90) = log(0)`), so no row-index map with anchored boundary rows is
produced. -/
theorem boundary_rows_fail_at_south_pole : rowIndexMap? (-90) 45 2 = none := by
  unfold rowIndexMap?
  rw [mercY?_eq_some (by norm_num) (by norm_num), mercY?_south_pole]
  rfl

/-- C5 (amended: extents strictly inside (-90, 90)): for every extent with
lat_min < lat_max, both strictly inside (-90, 90), and every height H ≥ 2, the
row-index map satisfies rowIndexMap[0] = 0 and rowIndexMap[H-1] = H-1: the top
and bottom anchor rows are exact. -/
theorem boundary_rows (lat_min lat_max : ℝ) (H : ℕ)
    (h1 : -90 < lat_min) (h2 : lat_min < lat_max) (h3 : lat_max < 90) (hH : 2 ≤ H) :
    srcRow lat_min lat_max H 0 = 0 ∧ srcRow lat_min lat_max H (H - 1) = (H : ℤ) - 1 :=
  ⟨srcRow_zero h1 h2 h3 hH, srcRow_last h1 h2 h3 hH⟩

theorem boundary_rows_witness :
    srcRow 0 45 3 0 = 0 ∧ srcRow 0 45 3 (3 - 1) = (3 : ℤ) - 1 := by
  exact boundary_rows 0 45 3 (by norm_num) (by norm_num) (by norm_num) (by norm_num)

/-- C6, counterexample to the claim as stated: lat_min = -90 lies in [-90, 90]
and below lat_max = 30, yet `reproject` aborts with a `math.log` domain error
(`_merc_y(-90) = log(0)`), so no monotone row-index map is computed there. -/
theorem monotone_fails_at_south_pole : rowIndexMap? (-90) 30 2 = none := by
  unfold rowIndexMap?
  rw [mercY?_eq_some (by norm_num) (by norm_num), mercY?_south_pole]
  rfl

/-- C6 (amended: extents strictly inside (-90, 90)): for every extent with
lat_min < lat_max, both strictly inside (-90, 90), and every height H ≥ 2, the
row-index map is monotonically non-decreasing: for output rows i < j,
rowIndexMap[i] ≤ rowIndexMap[j]. -/
theorem rowIndexMap_monotone (lat_min lat_max : ℝ) (H i j : ℕ)
    (h1 : -90 < lat_min) (h2 : lat_min < lat_max) (h3 : lat_max < 90)
    (hH : 2 ≤ H) (hij : i < j) :
    srcRow lat_min lat_max H i ≤ srcRow lat_min lat_max H j :=
  srcRow_mono h1 h2 h3 hH (le_of_lt hij)

theorem rowIndexMap_monotone_witness : srcRow 0 60 4 1 ≤ srcRow 0 60 4 2 := by
  exact rowIndexMap_monotone 0 60 4 1 2 (by norm_num) (by norm_num) (by norm_num)
    (by norm_num) (by norm_num)

/-- C7: for every source pixel array and every row-index map of the source's
length whose entries lie in [0, source_height-1], resampling produces an
output whose row i is an exact copy of source row rowIndexMap[i], with the
same height, the same colour mode, and every output row literally one of the
source rows (hence identical width and channel count). -/
theorem resample_exact_copy {α : Type} (img : PILImage α) (ymap : List Nat)
    (hlen : ymap.length = img.rows.length)
    (hval : ∀ j ∈ ymap, j < img.rows.length) :
    ∃ out, reprojectOutput img ymap = some out ∧
      out.mode = img.mode ∧
      out.rows.length = img.rows.length ∧
      (∀ i : Nat, out.rows[i]? = (ymap[i]?).bind fun j => img.rows[j]?) ∧
      (∀ r ∈ out.rows, r ∈ img.rows) := by
  obtain ⟨l, hl⟩ := gatherRows_isSome img.rows ymap hval
  refine ⟨{ rows := l, mode := img.mode, palette := outPalette img.mode img.palette,
            transparency := img.transparency }, ?_, rfl, ?_, ?_, ?_⟩
  · unfold reprojectOutput
    rw [hl]
    rfl
  · exact (gatherRows_length hl).trans hlen
  · exact gatherRows_getElem hl
  · exact gatherRows_mem hl

theorem resample_exact_copy_witness :
    ∃ out, reprojectOutput demoImage [1, 0] = some out ∧
      out.mode = demoImage.mode ∧
      out.rows.length = demoImage.rows.length ∧
      (∀ i : Nat, out.rows[i]? = (([1, 0] : List Nat)[i]?).bind fun j => demoImage.rows[j]?) ∧
      (∀ r ∈ out.rows, r ∈ demoImage.rows) := by
  exact resample_exact_copy demoImage [1, 0] (by decide) (by decide)

/-- C8: for every palette-mode source image with a (non-empty) palette and a
transparency index set, the output of `reproject` carries the identical
palette list and the identical transparency value, stays in palette mode, and
its rows are verbatim copies of source rows (palette indices, no colour
conversion). -/
theorem palette_preserved {α : Type} (img : PILImage α) (ymap : List Nat)
    (p : List Nat) (t : Nat)
    (hmode : img.mode = ColorMode.P)
    (hpal : img.palette = some p) (hp : p ≠ [])
    (htr : img.transparency = some t)
    (hval : ∀ j ∈ ymap, j < img.rows.length) :
    ∃ out, reprojectOutput img ymap = some out ∧
      out.palette = some p ∧ out.transparency = some t ∧ out.mode = ColorMode.P ∧
      (∀ i : Nat, out.rows[i]? = (ymap[i]?).bind fun j => img.rows[j]?) := by
  obtain ⟨l, hl⟩ := gatherRows_isSome img.rows ymap hval
  refine ⟨{ rows := l, mode := img.mode, palette := outPalette img.mode img.palette,
            transparency := img.transparency }, ?_, ?_, ?_, ?_, ?_⟩
  · unfold reprojectOutput
    rw [hl]
    rfl
  · simp [outPalette, hmode, hpal, hp]
  · exact htr
  · exact hmode
  · exact gatherRows_getElem hl

theorem palette_preserved_witness :
    ∃ out, reprojectOutput paletteImage [1, 1] = some out ∧
      out.palette = some [255, 0, 0, 0, 255, 0] ∧ out.transparency = some 0 ∧
      out.mode = ColorMode.P ∧
      (∀ i : Nat, out.rows[i]? = (([1, 1] : List Nat)[i]?).bind fun j => paletteImage.rows[j]?) := by
  exact palette_preserved paletteImage [1, 1] [255, 0, 0, 0, 255, 0] 0 rfl rfl
    (by decide) rfl (by decide)

/-- C9, counterexample to the claim as stated: the extent lat_min = 0,
lat_max = 90 is accepted as valid by the claim's criterion (0 < 90, both in
[-90, 90]), yet `reproject` evaluates `_merc_y` at latitude 90, which is not
strictly inside (-90, 90) — the Mercator singularity is reached. -/
theorem merc_args_outside_open_interval :
    (0:ℝ) < 90 ∧ (0:ℝ) ∈ Set.Icc (-90:ℝ) 90 ∧ (90:ℝ) ∈ Set.Icc (-90:ℝ) 90 ∧
    (90:ℝ) ∈ mercArgs 0 90 ∧ (90:ℝ) ∉ Set.Ioo (-90:ℝ) 90 := by
  refine ⟨by norm_num, ?_, ?_, ?_, ?_⟩
  · rw [Set.mem_Icc]
    constructor <;> norm_num
  · rw [Set.mem_Icc]
    constructor <;> norm_num
  · exact Set.mem_insert _ _
  · rw [Set.mem_Ioo]
    push_neg
    intro
    norm_num

/-- C9 (amended: both endpoints strictly inside (-90, 90)): `reproject`
evaluates the forward projector `_merc_y` exactly at lat_max and lat_min
(lines 185–186), so for every extent with lat_min < lat_max both strictly
inside (-90, 90) it never evaluates `_merc_y` outside the open interval
(-90, 90); the pole singularity is never reached. -/
theorem merc_args_interior (lat_min lat_max : ℝ)
    (h1 : -90 < lat_min) (h2 : lat_min < lat_max) (h3 : lat_max < 90) :
    mercArgs lat_min lat_max ⊆ Set.Ioo (-90:ℝ) 90 := by
  intro L hL
  simp only [mercArgs, Set.mem_insert_iff, Set.mem_singleton_iff] at hL
  rcases hL with rfl | rfl
  · exact Set.mem_Ioo.mpr ⟨by linarith, h3⟩
  · exact Set.mem_Ioo.mpr ⟨h1, by linarith⟩

theorem merc_args_interior_witness : mercArgs 0 45 ⊆ Set.Ioo (-90:ℝ) 90 := by
  exact merc_args_interior 0 45 (by norm_num) (by norm_num) (by norm_num)

/-- C10: the forward Mercator projector `_merc_y` is strictly monotonically
increasing on (-90, 90): for latitudes a < b both strictly inside the
interval, `_merc_y`(a) < `_merc_y`(b). -/
theorem merc_y_strictMono (a b : ℝ) (ha : -90 < a) (hab : a < b) (hb : b < 90) :
    merc_y a < merc_y b :=
  merc_y_lt ha hab hb

theorem merc_y_strictMono_witness : merc_y 0 < merc_y 45 := by
  exact merc_y_strictMono 0 45 (by norm_num) (by norm_num) (by norm_num)

end DownloadLP
